import Mathlib

/-!
Shallow embedding of the `artisyn-contracts` marketplace and registry
contracts (`contracts/market/src/lib.rs`, `contracts/registry/src/lib.rs`).

Conventions of the embedding:
* Soroban `Address` values are modelled as natural numbers.
* `u64` ledger timestamps and job ids are modelled as `Nat`; `i128` token
  amounts as `Int`.  Overflow is immaterial for the verified properties,
  which concern small concrete values and sign/ordering behaviour.
* Contract storage (`instance` and `persistent`) is explicit state:
  `MarketState` carries the two singletons and the per-id job map.
* Every contract entry point either panics (all effects rolled back by the
  host) or commits; this is modelled by `Except Err` where `.error`
  returns no state at all.
* The token collaborator is abstracted per the design document: a
  `transfer` always succeeds and moves balances; per-job custody (value
  transferred in minus transferred out for that job) is tracked in
  `World.custody`.
* The registry collaborator seen by the market is the profile lookup
  `MEnv.registry`, returning the market's mirror `Market.Profile` type.
* `require_auth` is modelled by the authorization environment `MEnv.auths`.
-/

abbrev Address := Nat

inductive JobStatus where
  | Open
  | Assigned
  | InProgress
  | PendingReview
  | Completed
  | Disputed
  | Cancelled
deriving DecidableEq, Repr

structure Job where
  id : Nat
  finder : Address
  artisan : Option Address
  token : Address
  amount : Int
  status : JobStatus
  start_time : Nat
  end_time : Nat
  deadline : Nat
deriving DecidableEq, Repr

/-- Error kinds, one per distinct panic message of the market contract. -/
inductive Err where
  | AlreadyInitialized
  | NotInitialized
  | NotFound
  | Unauthorized
  | NotOwner
  | InvalidState
  | PolicyViolation
  | TimingNotElapsed
  | NoArtisan
deriving DecidableEq, Repr

/-- The market contract's mirror of the registry profile
(`mod registry` in `contracts/market/src/lib.rs`, four fields). -/
structure Market.Profile where
  role : Nat
  metadata_hash : String
  is_verified : Bool
  is_blacklisted : Bool
deriving DecidableEq, Repr

/-- Events published by the market contract. -/
inductive Event where
  | JobCreated (id : Nat) (amount : Int)
  | JobAssigned (id : Nat) (artisan : Address)
  | JobApplication (id : Nat) (artisan : Address)
  | JobStarted (id : Nat) (artisan : Address)
  | JobCancelled (id : Nat)
  | JobCompleted (id : Nat) (artisan : Address)
  | FundsReleased (id : Nat) (artisan : Address) (amount : Int)
  | DeadlineExtended (id : Nat) (extra_time : Nat) (new_deadline : Nat)
  | BudgetIncreased (id : Nat) (added_amount : Int) (new_amount : Int)
deriving DecidableEq, Repr

/-- The market contract's stored state: the two instance singletons and the
persistent per-id job records. -/
structure MarketState where
  registryContract : Option Address
  jobCounter : Option Nat
  jobs : Nat → Option Job

/-- Ledger-level state surrounding the market contract: token balances
(token, holder) and the per-job custody ledger (total transferred into the
contract for the job minus total transferred out for it). -/
structure World where
  market : MarketState
  balances : Address → Address → Int
  custody : Nat → Int
  events : List Event

/-- Per-call environment: the contract's own address, the ledger timestamp
(read once per unit of work), the registry collaborator's profile lookup,
and the set of authorized addresses. -/
structure MEnv where
  contractAddr : Address
  nowTime : Nat
  registry : Address → Option Market.Profile
  auths : Address → Bool

/-- Effect of `token_client.transfer(fr, to, amt)` on the balance map. -/
def moveTok (b : Address → Address → Int) (tk src dst : Address) (amt : Int) :
    Address → Address → Int :=
  fun t a =>
    b t a + (if t = tk ∧ a = dst then amt else 0) - (if t = tk ∧ a = src then amt else 0)

/-- `if !cond { panic!(e) }`: proceed with `k` only when `b` holds. -/
def require (b : Prop) [Decidable b] (e : Err) (k : Except Err α) : Except Err α :=
  if b then k else .error e

/-- `option.expect(message)` / a lookup that panics when absent. -/
def withOpt (o : Option β) (e : Err) (k : β → Except Err α) : Except Err α :=
  match o with
  | some x => k x
  | none => .error e

/-- `storage().persistent().get(&DataKey::Job(id)).expect("Job not found")`. -/
def withJob (w : World) (job_id : Nat) (k : Job → Except Err α) : Except Err α :=
  withOpt (w.market.jobs job_id) .NotFound k

/-- Write the job record at `job_id` back into storage. -/
def setJob (w : World) (job_id : Nat) (job : Job) : World :=
  { w with market :=
    { w.market with jobs := fun j => if j = job_id then some job else w.market.jobs j } }

/-- Adjust the custody ledger of `job_id` by `d`. -/
def adjCustody (w : World) (job_id : Nat) (d : Int) : World :=
  { w with custody := fun j => if j = job_id then w.custody j + d else w.custody j }

/-- Append a published event. -/
def emit (w : World) (e : Event) : World :=
  { w with events := w.events ++ [e] }

/-- `MarketContract::initialize`. -/
def initMarket (w : World) (registry_contract : Address) : Except Err World :=
  require (w.market.registryContract = none) .AlreadyInitialized
    (.ok { w with market := { w.market with registryContract := some registry_contract } })

/-- `MarketContract::create_job`. -/
def create_job (env : MEnv) (w : World) (finder token : Address) (amount : Int) :
    Except Err (World × Nat) :=
  require (env.auths finder = true) .Unauthorized (
    let counter := w.market.jobCounter.getD 0
    let id := counter + 1
    let job : Job :=
      { id := id, finder := finder, artisan := none, token := token, amount := amount,
        status := .Open, start_time := 0, end_time := 0, deadline := 0 }
    let w1 := { w with balances := moveTok w.balances token finder env.contractAddr amount }
    let w2 := adjCustody w1 id amount
    let w3 := { w2 with market := { w2.market with jobCounter := some id } }
    let w4 := setJob w3 id job
    .ok (emit w4 (.JobCreated id amount), id))

/-- `MarketContract::assign_artisan`. -/
def assign_artisan (env : MEnv) (w : World) (finder : Address) (job_id : Nat)
    (artisan : Address) : Except Err World :=
  require (w.market.registryContract ≠ none) .NotInitialized (
  withJob w job_id fun job =>
  require (env.auths finder = true) .Unauthorized (
  require (job.finder = finder) .NotOwner (
  require (job.status = .Open) .InvalidState (
  withOpt (env.registry artisan) .NotFound fun profile =>
    require (profile.role = 3) .PolicyViolation (
    require (profile.is_blacklisted = false) .PolicyViolation (
    let w1 := setJob w job_id { job with artisan := some artisan, status := .Assigned }
    .ok (emit w1 (.JobAssigned job_id artisan))))))))

/-- `MarketContract::apply_for_job`. -/
def apply_for_job (env : MEnv) (w : World) (artisan : Address) (job_id : Nat) :
    Except Err World :=
  require (env.auths artisan = true) .Unauthorized (
  require (w.market.registryContract ≠ none) .NotInitialized (
  withJob w job_id fun job =>
  require (job.status = .Open) .InvalidState (
  withOpt (env.registry artisan) .NotFound fun profile =>
    require (profile.role = 3) .PolicyViolation (
    require (profile.is_blacklisted = false) .PolicyViolation (
    .ok (emit w (.JobApplication job_id artisan)))))))

/-- `MarketContract::start_job`. -/
def start_job (env : MEnv) (w : World) (artisan : Address) (job_id : Nat) :
    Except Err World :=
  require (env.auths artisan = true) .Unauthorized (
  withJob w job_id fun job =>
  require (job.status = .Assigned) .InvalidState (
  require (job.artisan = some artisan) .NotOwner (
  let w1 := setJob w job_id { job with status := .InProgress, start_time := env.nowTime }
  .ok (emit w1 (.JobStarted job_id artisan)))))

/-- `MarketContract::cancel_job`. -/
def cancel_job (env : MEnv) (w : World) (finder : Address) (job_id : Nat) :
    Except Err World :=
  require (env.auths finder = true) .Unauthorized (
  withJob w job_id fun job =>
  require (job.finder = finder) .NotOwner (
  require (job.status = .Open) .InvalidState (
  let w1 := { w with balances := moveTok w.balances job.token env.contractAddr finder job.amount }
  let w2 := adjCustody w1 job_id (-job.amount)
  let w3 := setJob w2 job_id { job with status := .Cancelled }
  .ok (emit w3 (.JobCancelled job_id)))))

/-- `MarketContract::complete_job`.  Note the source checks the assigned
artisan before the status. -/
def complete_job (env : MEnv) (w : World) (artisan : Address) (job_id : Nat) :
    Except Err World :=
  require (env.auths artisan = true) .Unauthorized (
  withJob w job_id fun job =>
  require (job.artisan = some artisan) .NotOwner (
  require (job.status = .InProgress) .InvalidState (
  let w1 := setJob w job_id { job with status := .PendingReview, end_time := env.nowTime }
  .ok (emit w1 (.JobCompleted job_id artisan)))))

/-- `MarketContract::auto_release_funds`. -/
def auto_release_funds (env : MEnv) (w : World) (artisan : Address) (job_id : Nat) :
    Except Err World :=
  require (env.auths artisan = true) .Unauthorized (
  withJob w job_id fun job =>
  require (job.status = .PendingReview) .InvalidState (
  withOpt job.artisan .NoArtisan fun artisan_from_job =>
    require (artisan_from_job = artisan) .NotOwner (
    let release_time := job.end_time + 604800
    require (¬ env.nowTime ≤ release_time) .TimingNotElapsed (
    let w1 := { w with balances := moveTok w.balances job.token env.contractAddr artisan job.amount }
    let w2 := adjCustody w1 job_id (-job.amount)
    let w3 := setJob w2 job_id { job with status := .Completed }
    .ok (emit w3 (.FundsReleased job_id artisan job.amount))))))

/-- `MarketContract::extend_deadline`. -/
def extend_deadline (env : MEnv) (w : World) (finder : Address) (job_id : Nat)
    (extra_time : Nat) : Except Err World :=
  require (env.auths finder = true) .Unauthorized (
  withJob w job_id fun job =>
  require (job.finder = finder) .NotOwner (
  require (¬ (job.status = .Completed ∨ job.status = .Cancelled)) .InvalidState (
  let job1 := { job with deadline := job.deadline + extra_time }
  let w1 := setJob w job_id job1
  .ok (emit w1 (.DeadlineExtended job_id extra_time job1.deadline)))))

/-- `MarketContract::increase_budget`. -/
def increase_budget (env : MEnv) (w : World) (finder : Address) (job_id : Nat)
    (added_amount : Int) : Except Err World :=
  require (env.auths finder = true) .Unauthorized (
  withJob w job_id fun job =>
  require (job.finder = finder) .NotOwner (
  require (¬ (job.status = .Completed ∨ job.status = .Cancelled)) .InvalidState (
  let w1 := { w with balances := moveTok w.balances job.token finder env.contractAddr added_amount }
  let w2 := adjCustody w1 job_id added_amount
  let job1 := { job with amount := job.amount + added_amount }
  let w3 := setJob w2 job_id job1
  .ok (emit w3 (.BudgetIncreased job_id added_amount job1.amount)))))

/-- One action of the market contract (one unit of work). -/
inductive Act where
  | initMarket (registry_contract : Address)
  | create_job (finder token : Address) (amount : Int)
  | assign_artisan (finder : Address) (job_id : Nat) (artisan : Address)
  | apply_for_job (artisan : Address) (job_id : Nat)
  | start_job (artisan : Address) (job_id : Nat)
  | complete_job (artisan : Address) (job_id : Nat)
  | cancel_job (finder : Address) (job_id : Nat)
  | auto_release_funds (artisan : Address) (job_id : Nat)
  | extend_deadline (finder : Address) (job_id : Nat) (extra_time : Nat)
  | increase_budget (finder : Address) (job_id : Nat) (added_amount : Int)

/-- Execute one action against the world. -/
def exec (env : MEnv) (w : World) : Act → Except Err World
  | .initMarket rc => initMarket w rc
  | .create_job f t a => (create_job env w f t a).map Prod.fst
  | .assign_artisan f id a => assign_artisan env w f id a
  | .apply_for_job a id => apply_for_job env w a id
  | .start_job a id => start_job env w a id
  | .complete_job a id => complete_job env w a id
  | .cancel_job f id => cancel_job env w f id
  | .auto_release_funds a id => auto_release_funds env w a id
  | .extend_deadline f id x => extend_deadline env w f id x
  | .increase_budget f id d => increase_budget env w f id d

/-- The world before any interaction: empty storage, zero balances. -/
def initialWorld : World :=
  { market := { registryContract := none, jobCounter := none, jobs := fun _ => none },
    balances := fun _ _ => 0,
    custody := fun _ => 0,
    events := [] }

namespace Registry

/-- The registry contract's own `Profile` struct
(`contracts/registry/src/lib.rs`): it has exactly three fields. -/
structure Profile where
  role : Nat
  metadata_hash : String
  is_verified : Bool
deriving DecidableEq, Repr

/-- The registry's persistent profile store, keyed by identity. -/
abbrev Store := Address → Option Profile

/-- `Registry::get_profile`. -/
def get_profile (st : Store) (user : Address) : Except Err Profile :=
  match st user with
  | some p => .ok p
  | none => .error .NotFound

end Registry

/-- A host value, as exchanged between contracts (the relevant subset). -/
inductive SVal where
  | U32 (n : Nat)
  | Str (s : String)
  | Boolean (b : Bool)
deriving DecidableEq, Repr

/-- Host encoding of the registry's `Profile` struct: a map from field
name to value, keys in sorted order, one entry per declared field. -/
def Registry.Profile.encode (p : Registry.Profile) : List (String × SVal) :=
  [("is_verified", .Boolean p.is_verified),
   ("metadata_hash", .Str p.metadata_hash),
   ("role", .U32 p.role)]

/-- Look a field up in an encoded struct. -/
def lookupField (m : List (String × SVal)) (k : String) : Option SVal :=
  (m.find? (fun e => e.1 = k)).map (fun e => e.2)

/-- Decoding of a host struct value into the market contract's four-field
mirror `Market.Profile`: every declared field must be present. -/
def Market.decodeProfile (m : List (String × SVal)) : Option Market.Profile :=
  match lookupField m "role", lookupField m "metadata_hash",
        lookupField m "is_verified", lookupField m "is_blacklisted" with
  | some (.U32 r), some (.Str h), some (.Boolean v), some (.Boolean b) =>
      some { role := r, metadata_hash := h, is_verified := v, is_blacklisted := b }
  | _, _, _, _ => none

section Sanity

example : (create_job
    { contractAddr := 0, nowTime := 0, registry := fun _ => none, auths := fun _ => true }
    initialWorld 1 9 500).map Prod.snd = .ok 1 := by rfl

end Sanity

/-! ## Inversion lemmas for the guard combinators -/

@[simp] theorem require_ok_iff {α} {b : Prop} [Decidable b] {e : Err}
    {k : Except Err α} {x : α} :
    require b e k = Except.ok x ↔ b ∧ k = Except.ok x := by
  unfold require; split <;> simp_all

@[simp] theorem withOpt_ok_iff {α β} {o : Option β} {e : Err}
    {k : β → Except Err α} {x : α} :
    withOpt o e k = Except.ok x ↔ ∃ y, o = some y ∧ k y = Except.ok x := by
  unfold withOpt; cases o <;> simp

@[simp] theorem withJob_ok_iff {α} {w : World} {job_id : Nat}
    {k : Job → Except Err α} {x : α} :
    withJob w job_id k = Except.ok x ↔
      ∃ job, w.market.jobs job_id = some job ∧ k job = Except.ok x := by
  unfold withJob; exact withOpt_ok_iff

theorem require_error_iff {α} {b : Prop} [Decidable b] {e e' : Err}
    {k : Except Err α} :
    require b e k = Except.error e' ↔ (¬ b ∧ e' = e) ∨ (b ∧ k = Except.error e') := by
  unfold require; split <;> simp_all [eq_comm]

/-- An `Except` that is `ok` for no value is an error. -/
theorem exists_error_of_not_ok {α} {x : Except Err α}
    (h : ∀ a, x ≠ Except.ok a) : ∃ e, x = Except.error e := by
  cases x <;> simp_all

/-! ## Projection lemmas for the world updaters -/

@[simp] theorem emit_market (w : World) (e : Event) : (emit w e).market = w.market := rfl
@[simp] theorem emit_custody (w : World) (e : Event) : (emit w e).custody = w.custody := rfl
@[simp] theorem emit_balances (w : World) (e : Event) :
    (emit w e).balances = w.balances := rfl
@[simp] theorem emit_events (w : World) (e : Event) :
    (emit w e).events = w.events ++ [e] := rfl

@[simp] theorem setJob_jobs (w : World) (job_id : Nat) (j : Job) (k : Nat) :
    (setJob w job_id j).market.jobs k = if k = job_id then some j else w.market.jobs k := rfl
@[simp] theorem setJob_counter (w : World) (job_id : Nat) (j : Job) :
    (setJob w job_id j).market.jobCounter = w.market.jobCounter := rfl
@[simp] theorem setJob_registry (w : World) (job_id : Nat) (j : Job) :
    (setJob w job_id j).market.registryContract = w.market.registryContract := rfl
@[simp] theorem setJob_custody (w : World) (job_id : Nat) (j : Job) :
    (setJob w job_id j).custody = w.custody := rfl
@[simp] theorem setJob_balances (w : World) (job_id : Nat) (j : Job) :
    (setJob w job_id j).balances = w.balances := rfl

@[simp] theorem adjCustody_market (w : World) (job_id : Nat) (d : Int) :
    (adjCustody w job_id d).market = w.market := rfl
@[simp] theorem adjCustody_custody (w : World) (job_id : Nat) (d : Int) (k : Nat) :
    (adjCustody w job_id d).custody k =
      if k = job_id then w.custody k + d else w.custody k := rfl
@[simp] theorem adjCustody_balances (w : World) (job_id : Nat) (d : Int) :
    (adjCustody w job_id d).balances = w.balances := rfl

@[simp] theorem except_map_ok_iff {α β} {f : α → β} {x : Except Err α} {y : β} :
    x.map f = Except.ok y ↔ ∃ a, x = Except.ok a ∧ f a = y := by
  cases x <;> simp [Except.map]

/-! ## Escrow custody invariant -/

/-- Every id strictly above the stored counter is unallocated. -/
def counterInv (s : MarketState) : Prop :=
  ∀ id, s.jobCounter.getD 0 < id → s.jobs id = none

/-- Unallocated ids hold no custody. -/
def custodyFree (w : World) : Prop :=
  ∀ id, w.market.jobs id = none → w.custody id = 0

/-- A stored job's `amount` equals the custody held for it while the job is
not finalized; once finalized, custody is zero (while `amount` keeps its
last value). -/
def custodyLive (w : World) : Prop :=
  ∀ id job, w.market.jobs id = some job →
    ((job.status ≠ .Completed ∧ job.status ≠ .Cancelled) → w.custody id = job.amount) ∧
    ((job.status = .Completed ∨ job.status = .Cancelled) → w.custody id = 0)

def escrowInv (w : World) : Prop :=
  counterInv w.market ∧ custodyFree w ∧ custodyLive w

theorem escrowInv_initMarket {w rc w'} (hinv : escrowInv w)
    (h : initMarket w rc = Except.ok w') : escrowInv w' := by
  obtain ⟨hc, hf, hl⟩ := hinv
  simp [initMarket] at h
  obtain ⟨-, hw'⟩ := h
  subst hw'
  exact ⟨hc, hf, hl⟩

theorem escrowInv_create {env w f t amt p} (hinv : escrowInv w)
    (h : create_job env w f t amt = Except.ok p) : escrowInv p.1 := by
  obtain ⟨hc, hf, hl⟩ := hinv
  simp [create_job] at h
  obtain ⟨hauth, hw'⟩ := h
  have hfresh : w.market.jobs (w.market.jobCounter.getD 0 + 1) = none :=
    hc _ (Nat.lt_succ_self _)
  subst hw'
  refine ⟨?_, ?_, ?_⟩
  · intro k hk
    simp only [emit_market, setJob_jobs] at *
    have hk' : w.market.jobCounter.getD 0 + 1 < k := by simpa using hk
    have hne : k ≠ w.market.jobCounter.getD 0 + 1 := Nat.ne_of_gt hk'
    simp [hne]
    exact hc k (Nat.lt_of_succ_lt hk')
  · intro k hk
    simp only [emit_market, setJob_jobs] at hk
    by_cases hke : k = w.market.jobCounter.getD 0 + 1
    · simp [hke] at hk
    · simp [hke] at hk ⊢
      exact hf k hk
  · intro k job hk
    simp only [emit_market, setJob_jobs] at hk
    by_cases hke : k = w.market.jobCounter.getD 0 + 1
    · subst hke
      simp at hk
      subst hk
      constructor
      · intro _
        simp [emit_custody, setJob_custody, adjCustody_custody, hf _ hfresh]
      · intro hterm
        simp at hterm
    · simp [hke] at hk
      have := hl k job hk
      simpa [emit_custody, setJob_custody, adjCustody_custody, hke] using this

theorem escrowInv_assign {env w f id a w'} (hinv : escrowInv w)
    (h : assign_artisan env w f id a = Except.ok w') : escrowInv w' := by
  obtain ⟨hc, hf, hl⟩ := hinv
  simp [assign_artisan] at h
  obtain ⟨hreg, job, hjob, hauth, hfin, hopen, prof, hprof, hrole, hbl, hw'⟩ := h
  subst hw'
  have hle : ¬ w.market.jobCounter.getD 0 < id := by
    intro hlt; rw [hc id hlt] at hjob; exact Option.noConfusion hjob
  refine ⟨?_, ?_, ?_⟩
  · intro k hk
    simp only [emit_market, setJob_counter, setJob_jobs] at *
    have hne : k ≠ id := by rintro rfl; exact hle hk
    simp [hne]
    exact hc k hk
  · intro k hk
    simp only [emit_market, setJob_jobs] at hk
    by_cases hke : k = id
    · simp [hke] at hk
    · simp [hke] at hk
      simpa using hf k hk
  · intro k job' hk
    simp only [emit_market, setJob_jobs] at hk
    by_cases hke : k = id
    · subst hke
      simp at hk
      subst hk
      have := (hl k job hjob).1 (by simp [hopen])
      constructor
      · intro _; simpa using this
      · intro hterm; simp at hterm
    · simp [hke] at hk
      simpa using hl k job' hk

theorem escrowInv_apply {env w a id w'} (hinv : escrowInv w)
    (h : apply_for_job env w a id = Except.ok w') : escrowInv w' := by
  obtain ⟨hc, hf, hl⟩ := hinv
  simp [apply_for_job] at h
  obtain ⟨hauth, hreg, job, hjob, hopen, prof, hprof, hrole, hbl, hw'⟩ := h
  subst hw'
  exact ⟨hc, hf, hl⟩

theorem escrowInv_start {env w a id w'} (hinv : escrowInv w)
    (h : start_job env w a id = Except.ok w') : escrowInv w' := by
  obtain ⟨hc, hf, hl⟩ := hinv
  simp [start_job] at h
  obtain ⟨hauth, job, hjob, hst, hart, hw'⟩ := h
  subst hw'
  have hle : ¬ w.market.jobCounter.getD 0 < id := by
    intro hlt; rw [hc id hlt] at hjob; exact Option.noConfusion hjob
  refine ⟨?_, ?_, ?_⟩
  · intro k hk
    simp only [emit_market, setJob_counter, setJob_jobs] at *
    have hne : k ≠ id := by rintro rfl; exact hle hk
    simp [hne]
    exact hc k hk
  · intro k hk
    simp only [emit_market, setJob_jobs] at hk
    by_cases hke : k = id
    · simp [hke] at hk
    · simp [hke] at hk
      simpa using hf k hk
  · intro k job' hk
    simp only [emit_market, setJob_jobs] at hk
    by_cases hke : k = id
    · subst hke
      simp at hk
      subst hk
      have := (hl k job hjob).1 (by simp [hst])
      constructor
      · intro _; simpa using this
      · intro hterm; simp at hterm
    · simp [hke] at hk
      simpa using hl k job' hk

theorem escrowInv_complete {env w a id w'} (hinv : escrowInv w)
    (h : complete_job env w a id = Except.ok w') : escrowInv w' := by
  obtain ⟨hc, hf, hl⟩ := hinv
  simp [complete_job] at h
  obtain ⟨hauth, job, hjob, hart, hst, hw'⟩ := h
  subst hw'
  have hle : ¬ w.market.jobCounter.getD 0 < id := by
    intro hlt; rw [hc id hlt] at hjob; exact Option.noConfusion hjob
  refine ⟨?_, ?_, ?_⟩
  · intro k hk
    simp only [emit_market, setJob_counter, setJob_jobs] at *
    have hne : k ≠ id := by rintro rfl; exact hle hk
    simp [hne]
    exact hc k hk
  · intro k hk
    simp only [emit_market, setJob_jobs] at hk
    by_cases hke : k = id
    · simp [hke] at hk
    · simp [hke] at hk
      simpa using hf k hk
  · intro k job' hk
    simp only [emit_market, setJob_jobs] at hk
    by_cases hke : k = id
    · subst hke
      simp at hk
      subst hk
      have := (hl k job hjob).1 (by simp [hst])
      constructor
      · intro _; simpa using this
      · intro hterm; simp at hterm
    · simp [hke] at hk
      simpa using hl k job' hk

theorem escrowInv_cancel {env w f id w'} (hinv : escrowInv w)
    (h : cancel_job env w f id = Except.ok w') : escrowInv w' := by
  obtain ⟨hc, hf, hl⟩ := hinv
  simp [cancel_job] at h
  obtain ⟨hauth, job, hjob, hfin, hopen, hw'⟩ := h
  subst hw'
  have hle : ¬ w.market.jobCounter.getD 0 < id := by
    intro hlt; rw [hc id hlt] at hjob; exact Option.noConfusion hjob
  have hcur : w.custody id = job.amount := (hl id job hjob).1 (by simp [hopen])
  refine ⟨?_, ?_, ?_⟩
  · intro k hk
    simp only [emit_market, setJob_counter, setJob_jobs] at *
    have hne : k ≠ id := by rintro rfl; exact hle hk
    simp [hne]
    exact hc k hk
  · intro k hk
    simp only [emit_market, setJob_jobs] at hk
    by_cases hke : k = id
    · simp [hke] at hk
    · simp [hke] at hk
      simpa [hke] using hf k hk
  · intro k job' hk
    simp only [emit_market, setJob_jobs] at hk
    by_cases hke : k = id
    · subst hke
      simp at hk
      subst hk
      constructor
      · intro hnt; simp at hnt
      · intro _
        simp [emit_custody, setJob_custody, adjCustody_custody, hcur]
    · simp [hke] at hk
      simpa [hke] using hl k job' hk

theorem escrowInv_release {env w a id w'} (hinv : escrowInv w)
    (h : auto_release_funds env w a id = Except.ok w') : escrowInv w' := by
  obtain ⟨hc, hf, hl⟩ := hinv
  simp [auto_release_funds] at h
  obtain ⟨hauth, job, hjob, hst, art, hart, harteq, htime, hw'⟩ := h
  subst hw'
  have hle : ¬ w.market.jobCounter.getD 0 < id := by
    intro hlt; rw [hc id hlt] at hjob; exact Option.noConfusion hjob
  have hcur : w.custody id = job.amount := (hl id job hjob).1 (by simp [hst])
  refine ⟨?_, ?_, ?_⟩
  · intro k hk
    simp only [emit_market, setJob_counter, setJob_jobs] at *
    have hne : k ≠ id := by rintro rfl; exact hle hk
    simp [hne]
    exact hc k hk
  · intro k hk
    simp only [emit_market, setJob_jobs] at hk
    by_cases hke : k = id
    · simp [hke] at hk
    · simp [hke] at hk
      simpa [hke] using hf k hk
  · intro k job' hk
    simp only [emit_market, setJob_jobs] at hk
    by_cases hke : k = id
    · subst hke
      simp at hk
      subst hk
      constructor
      · intro hnt; simp at hnt
      · intro _
        simp [emit_custody, setJob_custody, adjCustody_custody, hcur]
    · simp [hke] at hk
      simpa [hke] using hl k job' hk

theorem escrowInv_extend {env w f id x w'} (hinv : escrowInv w)
    (h : extend_deadline env w f id x = Except.ok w') : escrowInv w' := by
  obtain ⟨hc, hf, hl⟩ := hinv
  simp [extend_deadline] at h
  obtain ⟨hauth, job, hjob, hfin, hterm, hw'⟩ := h
  subst hw'
  have hle : ¬ w.market.jobCounter.getD 0 < id := by
    intro hlt; rw [hc id hlt] at hjob; exact Option.noConfusion hjob
  refine ⟨?_, ?_, ?_⟩
  · intro k hk
    simp only [emit_market, setJob_counter, setJob_jobs] at *
    have hne : k ≠ id := by rintro rfl; exact hle hk
    simp [hne]
    exact hc k hk
  · intro k hk
    simp only [emit_market, setJob_jobs] at hk
    by_cases hke : k = id
    · simp [hke] at hk
    · simp [hke] at hk
      simpa using hf k hk
  · intro k job' hk
    simp only [emit_market, setJob_jobs] at hk
    by_cases hke : k = id
    · subst hke
      simp at hk
      subst hk
      have := (hl k job hjob).1 ⟨hterm.1, hterm.2⟩
      constructor
      · intro _; simpa using this
      · intro hterm'; simp at hterm'; tauto
    · simp [hke] at hk
      simpa using hl k job' hk

/-! ## Artisan-assignment invariant -/

/-- A stored job has an assigned artisan exactly when its status is neither
`Open` nor `Cancelled`. -/
def artisanInv (w : World) : Prop :=
  ∀ id job, w.market.jobs id = some job →
    (job.artisan.isSome = true ↔ (job.status ≠ .Open ∧ job.status ≠ .Cancelled))

theorem artisanInv_initMarket {w rc w'} (hinv : artisanInv w)
    (h : initMarket w rc = Except.ok w') : artisanInv w' := by
  simp [initMarket] at h
  obtain ⟨-, hw'⟩ := h
  subst hw'
  exact hinv

theorem artisanInv_create {env w f t amt p} (hinv : artisanInv w)
    (h : create_job env w f t amt = Except.ok p) : artisanInv p.1 := by
  simp [create_job] at h
  obtain ⟨hauth, hw'⟩ := h
  subst hw'
  intro k job hk
  simp only [emit_market, setJob_jobs] at hk
  by_cases hke : k = w.market.jobCounter.getD 0 + 1
  · simp [hke] at hk
    subst hk
    simp
  · simp [hke] at hk
    exact hinv k job hk

theorem artisanInv_assign {env w f id a w'} (hinv : artisanInv w)
    (h : assign_artisan env w f id a = Except.ok w') : artisanInv w' := by
  simp [assign_artisan] at h
  obtain ⟨hreg, job, hjob, hauth, hfin, hopen, prof, hprof, hrole, hbl, hw'⟩ := h
  subst hw'
  intro k job' hk
  simp only [emit_market, setJob_jobs] at hk
  by_cases hke : k = id
  · simp [hke] at hk
    subst hk
    simp
  · simp [hke] at hk
    exact hinv k job' hk

theorem artisanInv_apply {env w a id w'} (hinv : artisanInv w)
    (h : apply_for_job env w a id = Except.ok w') : artisanInv w' := by
  simp [apply_for_job] at h
  obtain ⟨hauth, hreg, job, hjob, hopen, prof, hprof, hrole, hbl, hw'⟩ := h
  subst hw'
  exact hinv

theorem artisanInv_start {env w a id w'} (hinv : artisanInv w)
    (h : start_job env w a id = Except.ok w') : artisanInv w' := by
  simp [start_job] at h
  obtain ⟨hauth, job, hjob, hst, hart, hw'⟩ := h
  subst hw'
  intro k job' hk
  simp only [emit_market, setJob_jobs] at hk
  by_cases hke : k = id
  · simp [hke] at hk
    subst hk
    simp [hart]
  · simp [hke] at hk
    exact hinv k job' hk

theorem artisanInv_complete {env w a id w'} (hinv : artisanInv w)
    (h : complete_job env w a id = Except.ok w') : artisanInv w' := by
  simp [complete_job] at h
  obtain ⟨hauth, job, hjob, hart, hst, hw'⟩ := h
  subst hw'
  intro k job' hk
  simp only [emit_market, setJob_jobs] at hk
  by_cases hke : k = id
  · simp [hke] at hk
    subst hk
    simp [hart]
  · simp [hke] at hk
    exact hinv k job' hk

theorem artisanInv_cancel {env w f id w'} (hinv : artisanInv w)
    (h : cancel_job env w f id = Except.ok w') : artisanInv w' := by
  simp [cancel_job] at h
  obtain ⟨hauth, job, hjob, hfin, hopen, hw'⟩ := h
  subst hw'
  have h2 := hinv id job hjob
  have hnone : job.artisan = none := by
    cases hart : job.artisan with
    | none => rfl
    | some x => simp [hart, hopen] at h2
  intro k job' hk
  simp only [emit_market, setJob_jobs] at hk
  by_cases hke : k = id
  · simp [hke] at hk
    subst hk
    simp [hnone]
  · simp [hke] at hk
    exact hinv k job' hk

theorem artisanInv_release {env w a id w'} (hinv : artisanInv w)
    (h : auto_release_funds env w a id = Except.ok w') : artisanInv w' := by
  simp [auto_release_funds] at h
  obtain ⟨hauth, job, hjob, hst, art, hart, harteq, htime, hw'⟩ := h
  subst hw'
  intro k job' hk
  simp only [emit_market, setJob_jobs] at hk
  by_cases hke : k = id
  · simp [hke] at hk
    subst hk
    simp [hart]
  · simp [hke] at hk
    exact hinv k job' hk

theorem artisanInv_extend {env w f id x w'} (hinv : artisanInv w)
    (h : extend_deadline env w f id x = Except.ok w') : artisanInv w' := by
  simp [extend_deadline] at h
  obtain ⟨hauth, job, hjob, hfin, hterm, hw'⟩ := h
  subst hw'
  intro k job' hk
  simp only [emit_market, setJob_jobs] at hk
  by_cases hke : k = id
  · subst hke
    simp at hk
    subst hk
    simpa using hinv k job hjob
  · simp [hke] at hk
    exact hinv k job' hk

theorem artisanInv_increase {env w f id d w'} (hinv : artisanInv w)
    (h : increase_budget env w f id d = Except.ok w') : artisanInv w' := by
  simp [increase_budget] at h
  obtain ⟨hauth, job, hjob, hfin, hterm, hw'⟩ := h
  subst hw'
  intro k job' hk
  simp only [emit_market, setJob_jobs] at hk
  by_cases hke : k = id
  · subst hke
    simp at hk
    subst hk
    simpa using hinv k job hjob
  · simp [hke] at hk
    exact hinv k job' hk

theorem escrowInv_increase {env w f id d w'} (hinv : escrowInv w)
    (h : increase_budget env w f id d = Except.ok w') : escrowInv w' := by
  obtain ⟨hc, hf, hl⟩ := hinv
  simp [increase_budget] at h
  obtain ⟨hauth, job, hjob, hfin, hterm, hw'⟩ := h
  subst hw'
  have hle : ¬ w.market.jobCounter.getD 0 < id := by
    intro hlt; rw [hc id hlt] at hjob; exact Option.noConfusion hjob
  have hcur : w.custody id = job.amount := (hl id job hjob).1 ⟨hterm.1, hterm.2⟩
  refine ⟨?_, ?_, ?_⟩
  · intro k hk
    simp only [emit_market, setJob_counter, setJob_jobs] at *
    have hne : k ≠ id := by rintro rfl; exact hle hk
    simp [hne]
    exact hc k hk
  · intro k hk
    simp only [emit_market, setJob_jobs] at hk
    by_cases hke : k = id
    · simp [hke] at hk
    · simp [hke] at hk
      simpa [hke] using hf k hk
  · intro k job' hk
    simp only [emit_market, setJob_jobs] at hk
    by_cases hke : k = id
    · subst hke
      simp at hk
      subst hk
      constructor
      · intro _
        simp [emit_custody, setJob_custody, adjCustody_custody, hcur]
      · intro hterm'; simp at hterm'; tauto
    · simp [hke] at hk
      simpa [hke] using hl k job' hk

/-! ## Concrete scenario material -/

/-- Environment with every address authorized, no registry profiles,
contract address 0, ledger time 0. -/
def envA : MEnv :=
  { contractAddr := 0, nowTime := 0, registry := fun _ => none, auths := fun _ => true }

/-- World after `create_job(finder 1, token 9, amount 500)` from scratch. -/
def exW1 : World :=
  (((create_job envA initialWorld 1 9 500).map Prod.fst).toOption).getD initialWorld

/-- World after additionally cancelling job 1. -/
def exW2 : World :=
  ((cancel_job envA exW1 1 1).toOption).getD exW1

/-! ## Claim C1 -/

/-- C1 counterexample: create job 1 with escrow 500, then cancel it.  The
refund empties the custody for job 1, but the stored record still says
`amount = 500`; the record does not reflect that the contract holds
nothing. -/
theorem cancel_leaves_stale_amount :
    create_job envA initialWorld 1 9 500 = Except.ok (exW1, 1) ∧
    cancel_job envA exW1 1 1 = Except.ok exW2 ∧
    exW2.custody 1 = 0 ∧
    (exW2.market.jobs 1).map Job.amount = some 500 ∧
    (exW2.market.jobs 1).map Job.amount ≠ some (exW2.custody 1) := by
  refine ⟨rfl, rfl, by decide, by decide, by decide⟩

/-- C1 (amended): the stored `amount` equals the value held in custody for
the job (transfers in minus transfers out) while the job is not finalized;
`cancel_job` and `auto_release_funds` empty the custody, but the record's
`amount` field retains its pre-disbursement value instead of reflecting
that the contract holds nothing.  Formally: `escrowInv` — custody equals
`amount` for non-finalized jobs, custody is zero for finalized or
unallocated ids, and ids above the counter are unallocated — is preserved
by every operation. -/
theorem amount_tracks_custody_invariant (env : MEnv) (w : World) (a : Act)
    (w' : World) (hinv : escrowInv w) (h : exec env w a = Except.ok w') :
    escrowInv w' := by
  cases a with
  | initMarket rc => exact escrowInv_initMarket hinv h
  | create_job f t amt =>
      simp only [exec, except_map_ok_iff] at h
      obtain ⟨p, hp, hw'⟩ := h
      subst hw'
      exact escrowInv_create hinv hp
  | assign_artisan f id a => exact escrowInv_assign hinv h
  | apply_for_job a id => exact escrowInv_apply hinv h
  | start_job a id => exact escrowInv_start hinv h
  | complete_job a id => exact escrowInv_complete hinv h
  | cancel_job f id => exact escrowInv_cancel hinv h
  | auto_release_funds a id => exact escrowInv_release hinv h
  | extend_deadline f id x => exact escrowInv_extend hinv h
  | increase_budget f id d => exact escrowInv_increase hinv h

/-- Witness for C1's amended theorem: applied to the initial world and a
concrete `create_job`. -/
theorem amount_tracks_custody_invariant_witness : escrowInv exW1 :=
  amount_tracks_custody_invariant envA initialWorld (Act.create_job 1 9 500) exW1
    (by
      refine ⟨?_, ?_, ?_⟩
      · intro id h; rfl
      · intro id h; rfl
      · intro id job h; exact Option.noConfusion h)
    (by rfl)

/-! ## Claim C2 -/

/-- C2 counterexample: after cancelling the open job 1, the stored record
has `status = Cancelled` (so `status ≠ Open`) yet `artisan = none`,
refuting `artisan.is_some ⇔ status ≠ Open`. -/
theorem cancelled_job_breaks_artisan_iff :
    cancel_job envA exW1 1 1 = Except.ok exW2 ∧
    (exW2.market.jobs 1).map Job.status = some JobStatus.Cancelled ∧
    (exW2.market.jobs 1).map Job.artisan = some none ∧
    ¬ ((Option.map Job.artisan (exW2.market.jobs 1) = some none) →
        (Option.map Job.status (exW2.market.jobs 1) = some JobStatus.Open)) := by
  refine ⟨rfl, by decide, by decide, by decide⟩

/-- C2 (amended): for every reachable job record, `artisan.is_some()` holds
if and only if the status is neither `Open` nor `Cancelled`; `cancel_job`
moves an `Open` job (whose `artisan` is `None`) to `Cancelled` with
`artisan` still `None`, so `Cancelled` joins `Open` on the `None` side of
the equivalence.  Formally: `artisanInv` is preserved by every
operation. -/
theorem artisan_iff_status_invariant (env : MEnv) (w : World) (a : Act)
    (w' : World) (hinv : artisanInv w) (h : exec env w a = Except.ok w') :
    artisanInv w' := by
  cases a with
  | initMarket rc => exact artisanInv_initMarket hinv h
  | create_job f t amt =>
      simp only [exec, except_map_ok_iff] at h
      obtain ⟨p, hp, hw'⟩ := h
      subst hw'
      exact artisanInv_create hinv hp
  | assign_artisan f id a => exact artisanInv_assign hinv h
  | apply_for_job a id => exact artisanInv_apply hinv h
  | start_job a id => exact artisanInv_start hinv h
  | complete_job a id => exact artisanInv_complete hinv h
  | cancel_job f id => exact artisanInv_cancel hinv h
  | auto_release_funds a id => exact artisanInv_release hinv h
  | extend_deadline f id x => exact artisanInv_extend hinv h
  | increase_budget f id d => exact artisanInv_increase hinv h

/-- Witness for C2's amended theorem: applied to the initial world and a
concrete `create_job`. -/
theorem artisan_iff_status_invariant_witness : artisanInv exW1 :=
  artisan_iff_status_invariant envA initialWorld (Act.create_job 1 9 500) exW1
    (by intro id job h; exact Option.noConfusion h)
    (by rfl)

/-! ## Claim C3 -/

/-- A `PendingReview` job record assigned to artisan 2 with `end_time`
100. -/
def jobPR : Job :=
  { id := 1, finder := 1, artisan := some 2, token := 9, amount := 500,
    status := .PendingReview, start_time := 10, end_time := 100, deadline := 0 }

/-- World holding only `jobPR` (custody 500). -/
def wPR : World :=
  { market := { registryContract := some 7, jobCounter := some 1,
                jobs := fun j => if j = 1 then some jobPR else none },
    balances := fun _ _ => 0,
    custody := fun j => if j = 1 then 500 else 0,
    events := [] }

/-- Environment one second past the 7-day threshold of `jobPR`. -/
def envPR : MEnv :=
  { contractAddr := 0, nowTime := 100 + 604800 + 1,
    registry := fun _ => none, auths := fun _ => true }

/-- C3: with the caller authenticated, `auto_release_funds(artisan, job_id)`
succeeds iff the job exists with status `PendingReview`, the caller is the
assigned artisan, and `now > end_time + 604800`; when the other conditions
hold but `now ≤ end_time + 604800` (in particular one second before the
threshold) it aborts with `TimingNotElapsed` (an abort returns no state,
modelling roll-back); and on success the only fund movement is a transfer
of exactly `job.amount` from the contract to the artisan, the job's status
becomes `Completed`, and no other job record changes. -/
theorem auto_release_funds_spec (env : MEnv) (w : World) (artisan : Address)
    (job_id : Nat) (hauth : env.auths artisan = true) :
    ((∃ job, w.market.jobs job_id = some job ∧ job.status = .PendingReview ∧
        job.artisan = some artisan ∧ job.end_time + 604800 < env.nowTime) ↔
      ∃ w', auto_release_funds env w artisan job_id = Except.ok w') ∧
    (∀ job, w.market.jobs job_id = some job → job.status = .PendingReview →
      job.artisan = some artisan → env.nowTime ≤ job.end_time + 604800 →
      auto_release_funds env w artisan job_id = Except.error Err.TimingNotElapsed) ∧
    (∀ job w', w.market.jobs job_id = some job →
      auto_release_funds env w artisan job_id = Except.ok w' →
      w'.balances = moveTok w.balances job.token env.contractAddr artisan job.amount ∧
      w'.market.jobs job_id = some { job with status := JobStatus.Completed } ∧
      (∀ k, k ≠ job_id → w'.market.jobs k = w.market.jobs k)) := by
  refine ⟨?_, ?_, ?_⟩
  · constructor
    · rintro ⟨job, hjob, hst, hart, htime⟩
      simp [auto_release_funds, withJob, withOpt, require, hjob, hst, hart, htime, hauth]
    · rintro ⟨w', hok⟩
      simp [auto_release_funds] at hok
      obtain ⟨-, job, hjob, hst, art, hart, harteq, htime, -⟩ := hok
      subst harteq
      exact ⟨job, hjob, hst, hart, htime⟩
  · intro job hjob hst hart hle
    simp [auto_release_funds, withJob, withOpt, require, hjob, hst, hart, hauth,
      Nat.not_lt.mpr hle]
  · intro job w' hjob hok
    simp [auto_release_funds] at hok
    obtain ⟨-, job2, hjob2, hst, art, hart, harteq, htime, hw'⟩ := hok
    rw [hjob] at hjob2
    injection hjob2 with hj2
    subst hj2
    subst hw'
    refine ⟨?_, ?_, ?_⟩
    · subst harteq
      rfl
    · simp
    · intro k hk
      simp [hk]

/-- Witness for C3: with `jobPR` pending review and the clock one second
past `end_time + 604800`, release succeeds. -/
theorem auto_release_funds_spec_witness :
    ∃ w', auto_release_funds envPR wPR 2 1 = Except.ok w' :=
  (auto_release_funds_spec envPR wPR 2 1 rfl).1.mp
    ⟨jobPR, rfl, rfl, rfl, by decide⟩

/-! ## Claim C5 -/

/-- Does the action target the job record at `id` with one of the seven
mutating job operations? -/
def mutatesJob (a : Act) (id : Nat) : Prop :=
  match a with
  | .assign_artisan _ j _ => j = id
  | .start_job _ j => j = id
  | .complete_job _ j => j = id
  | .cancel_job _ j => j = id
  | .auto_release_funds _ j => j = id
  | .extend_deadline _ j _ => j = id
  | .increase_budget _ j _ => j = id
  | _ => False

/-- C5: once a job's status is `Completed` or `Cancelled` the record is
terminal: every mutating operation aimed at it aborts (first conjunct), and
no successful operation of any kind changes the record again (second
conjunct; `counterInv` rules out the counter re-allocating the id). -/
theorem finalized_job_terminal (env : MEnv) (w : World) (id : Nat) (job : Job)
    (hjob : w.market.jobs id = some job)
    (hterm : job.status = .Completed ∨ job.status = .Cancelled)
    (hcnt : counterInv w.market) :
    (∀ a, mutatesJob a id → ∃ e, exec env w a = Except.error e) ∧
    (∀ a w', exec env w a = Except.ok w' → w'.market.jobs id = some job) := by
  constructor
  · intro a hma
    cases a with
    | initMarket rc => simp [mutatesJob] at hma
    | create_job f t amt => simp [mutatesJob] at hma
    | apply_for_job x j => simp [mutatesJob] at hma
    | assign_artisan f j x =>
        simp [mutatesJob] at hma
        subst hma
        apply exists_error_of_not_ok
        intro y hok
        simp [exec, assign_artisan] at hok
        obtain ⟨-, job2, hjob2, -, -, hopen, -⟩ := hok
        rw [hjob] at hjob2
        injection hjob2 with h2
        subst h2
        rcases hterm with h | h <;> simp [h] at hopen
    | start_job x j =>
        simp [mutatesJob] at hma
        subst hma
        apply exists_error_of_not_ok
        intro y hok
        simp [exec, start_job] at hok
        obtain ⟨-, job2, hjob2, hst, -⟩ := hok
        rw [hjob] at hjob2
        injection hjob2 with h2
        subst h2
        rcases hterm with h | h <;> simp [h] at hst
    | complete_job x j =>
        simp [mutatesJob] at hma
        subst hma
        apply exists_error_of_not_ok
        intro y hok
        simp [exec, complete_job] at hok
        obtain ⟨-, job2, hjob2, -, hst, -⟩ := hok
        rw [hjob] at hjob2
        injection hjob2 with h2
        subst h2
        rcases hterm with h | h <;> simp [h] at hst
    | cancel_job f j =>
        simp [mutatesJob] at hma
        subst hma
        apply exists_error_of_not_ok
        intro y hok
        simp [exec, cancel_job] at hok
        obtain ⟨-, job2, hjob2, -, hopen, -⟩ := hok
        rw [hjob] at hjob2
        injection hjob2 with h2
        subst h2
        rcases hterm with h | h <;> simp [h] at hopen
    | auto_release_funds x j =>
        simp [mutatesJob] at hma
        subst hma
        apply exists_error_of_not_ok
        intro y hok
        simp [exec, auto_release_funds] at hok
        obtain ⟨-, job2, hjob2, hst, -⟩ := hok
        rw [hjob] at hjob2
        injection hjob2 with h2
        subst h2
        rcases hterm with h | h <;> simp [h] at hst
    | extend_deadline f j x =>
        simp [mutatesJob] at hma
        subst hma
        apply exists_error_of_not_ok
        intro y hok
        simp [exec, extend_deadline] at hok
        obtain ⟨-, job2, hjob2, -, hnt, -⟩ := hok
        rw [hjob] at hjob2
        injection hjob2 with h2
        subst h2
        rcases hterm with h | h <;> simp [h] at hnt
    | increase_budget f j d =>
        simp [mutatesJob] at hma
        subst hma
        apply exists_error_of_not_ok
        intro y hok
        simp [exec, increase_budget] at hok
        obtain ⟨-, job2, hjob2, -, hnt, -⟩ := hok
        rw [hjob] at hjob2
        injection hjob2 with h2
        subst h2
        rcases hterm with h | h <;> simp [h] at hnt
  · intro a w' hok
    cases a with
    | initMarket rc =>
        simp [exec, initMarket] at hok
        obtain ⟨-, hw'⟩ := hok
        subst hw'
        exact hjob
    | create_job f t amt =>
        simp only [exec, except_map_ok_iff] at hok
        obtain ⟨p, hp, hw'⟩ := hok
        simp [create_job] at hp
        obtain ⟨-, hp'⟩ := hp
        subst hw'
        rw [← hp']
        have hne : id ≠ w.market.jobCounter.getD 0 + 1 := by
          rintro rfl
          rw [hcnt _ (Nat.lt_succ_self _)] at hjob
          exact Option.noConfusion hjob
        simp [hne]
        exact hjob
    | apply_for_job x j =>
        simp [exec, apply_for_job] at hok
        obtain ⟨-, -, job2, hjob2, -, prof, -, -, -, hw'⟩ := hok
        subst hw'
        exact hjob
    | assign_artisan f j x =>
        simp [exec, assign_artisan] at hok
        obtain ⟨-, job2, hjob2, -, -, hopen, prof, -, -, -, hw'⟩ := hok
        subst hw'
        by_cases hj : id = j
        · subst hj
          rw [hjob] at hjob2
          injection hjob2 with h2
          subst h2
          rcases hterm with h | h <;> simp [h] at hopen
        · simp [hj]
          exact hjob
    | start_job x j =>
        simp [exec, start_job] at hok
        obtain ⟨-, job2, hjob2, hst, -, hw'⟩ := hok
        subst hw'
        by_cases hj : id = j
        · subst hj
          rw [hjob] at hjob2
          injection hjob2 with h2
          subst h2
          rcases hterm with h | h <;> simp [h] at hst
        · simp [hj]
          exact hjob
    | complete_job x j =>
        simp [exec, complete_job] at hok
        obtain ⟨-, job2, hjob2, -, hst, hw'⟩ := hok
        subst hw'
        by_cases hj : id = j
        · subst hj
          rw [hjob] at hjob2
          injection hjob2 with h2
          subst h2
          rcases hterm with h | h <;> simp [h] at hst
        · simp [hj]
          exact hjob
    | cancel_job f j =>
        simp [exec, cancel_job] at hok
        obtain ⟨-, job2, hjob2, -, hopen, hw'⟩ := hok
        subst hw'
        by_cases hj : id = j
        · subst hj
          rw [hjob] at hjob2
          injection hjob2 with h2
          subst h2
          rcases hterm with h | h <;> simp [h] at hopen
        · simp [hj]
          exact hjob
    | auto_release_funds x j =>
        simp [exec, auto_release_funds] at hok
        obtain ⟨-, job2, hjob2, hst, art, -, -, -, hw'⟩ := hok
        subst hw'
        by_cases hj : id = j
        · subst hj
          rw [hjob] at hjob2
          injection hjob2 with h2
          subst h2
          rcases hterm with h | h <;> simp [h] at hst
        · simp [hj]
          exact hjob
    | extend_deadline f j x =>
        simp [exec, extend_deadline] at hok
        obtain ⟨-, job2, hjob2, -, hnt, hw'⟩ := hok
        subst hw'
        by_cases hj : id = j
        · subst hj
          rw [hjob] at hjob2
          injection hjob2 with h2
          subst h2
          rcases hterm with h | h <;> simp [h] at hnt
        · simp [hj]
          exact hjob
    | increase_budget f j d =>
        simp [exec, increase_budget] at hok
        obtain ⟨-, job2, hjob2, -, hnt, hw'⟩ := hok
        subst hw'
        by_cases hj : id = j
        · subst hj
          rw [hjob] at hjob2
          injection hjob2 with h2
          subst h2
          rcases hterm with h | h <;> simp [h] at hnt
        · simp [hj]
          exact hjob

/-- A concrete `Completed` job record. -/
def jobDone : Job :=
  { id := 1, finder := 1, artisan := some 2, token := 9, amount := 500,
    status := .Completed, start_time := 10, end_time := 100, deadline := 0 }

/-- World holding only the finalized `jobDone`. -/
def wDone : World :=
  { market := { registryContract := some 7, jobCounter := some 1,
                jobs := fun j => if j = 1 then some jobDone else none },
    balances := fun _ _ => 0,
    custody := fun _ => 0,
    events := [] }

/-- Witness for C5: `cancel_job` on the completed job 1 aborts. -/
theorem finalized_job_terminal_witness :
    ∃ e, exec envA wDone (Act.cancel_job 1 1) = Except.error e :=
  (finalized_job_terminal envA wDone 1 jobDone rfl (Or.inl rfl)
      (by
        intro i hi
        have hne : i ≠ 1 := by
          simp [wDone] at hi
          omega
        simp [wDone, hne])).1
    (Act.cancel_job 1 1) rfl

/-! ## Claim C6 -/

/-- C6: with the registry configured, the job present, the caller
authenticated and owning the job: a job whose status is `Assigned` makes
`assign_artisan` abort `InvalidState` (so assignment succeeds at most once
per job); on an `Open` job a candidate with no registry profile aborts
`NotFound`, a profile with role ≠ 3 or blacklisted aborts
`PolicyViolation`, and a role-3 non-blacklisted profile succeeds, the new
record differing from the old only in `artisan := some candidate` and
`status := Assigned`. -/
theorem assign_artisan_spec (env : MEnv) (w : World) (finder : Address)
    (job_id : Nat) (artisan : Address) (r : Address) (job : Job)
    (hreg : w.market.registryContract = some r)
    (hjob : w.market.jobs job_id = some job)
    (hauth : env.auths finder = true)
    (hown : job.finder = finder) :
    (job.status = .Assigned →
      assign_artisan env w finder job_id artisan = Except.error Err.InvalidState) ∧
    (job.status = .Open → env.registry artisan = none →
      assign_artisan env w finder job_id artisan = Except.error Err.NotFound) ∧
    (∀ p, job.status = .Open → env.registry artisan = some p →
      (p.role ≠ 3 ∨ p.is_blacklisted = true) →
      assign_artisan env w finder job_id artisan = Except.error Err.PolicyViolation) ∧
    (∀ p, job.status = .Open → env.registry artisan = some p →
      p.role = 3 → p.is_blacklisted = false →
      assign_artisan env w finder job_id artisan =
        Except.ok (emit
          (setJob w job_id { job with artisan := some artisan, status := .Assigned })
          (Event.JobAssigned job_id artisan))) := by
  refine ⟨?_, ?_, ?_, ?_⟩
  · intro hst
    simp [assign_artisan, withJob, withOpt, require, hreg, hjob, hauth, hown, hst]
  · intro hst hp
    simp [assign_artisan, withJob, withOpt, require, hreg, hjob, hauth, hown, hst, hp]
  · intro p hst hp hbad
    rcases hbad with hrole | hbl
    · simp [assign_artisan, withJob, withOpt, require, hreg, hjob, hauth, hown, hst, hp, hrole]
    · simp [assign_artisan, withJob, withOpt, require, hreg, hjob, hauth, hown, hst, hp, hbl]
  · intro p hst hp hrole hbl
    simp [assign_artisan, withJob, withOpt, require, hreg, hjob, hauth, hown, hst, hp,
      hrole, hbl]

/-- An open job posted by finder 1. -/
def jobOpen : Job :=
  { id := 1, finder := 1, artisan := none, token := 9, amount := 500,
    status := .Open, start_time := 0, end_time := 0, deadline := 0 }

/-- World holding only the open `jobOpen`. -/
def wOpen : World :=
  { market := { registryContract := some 7, jobCounter := some 1,
                jobs := fun j => if j = 1 then some jobOpen else none },
    balances := fun _ _ => 0,
    custody := fun j => if j = 1 then 500 else 0,
    events := [] }

/-- Environment whose registry holds a verified role-3 (Artisan),
non-blacklisted profile for address 2. -/
def envReg : MEnv :=
  { contractAddr := 0, nowTime := 0,
    registry := fun a =>
      if a = 2 then
        some { role := 3, metadata_hash := "h", is_verified := true,
               is_blacklisted := false }
      else none,
    auths := fun _ => true }

/-- Witness for C6: assigning artisan 2 to the open job 1 succeeds and
rewrites only `artisan` and `status`. -/
theorem assign_artisan_spec_witness :
    assign_artisan envReg wOpen 1 1 2 =
      Except.ok (emit
        (setJob wOpen 1 { jobOpen with artisan := some 2, status := .Assigned })
        (Event.JobAssigned 1 2)) :=
  (assign_artisan_spec envReg wOpen 1 1 2 7 jobOpen rfl rfl rfl rfl).2.2.2
    { role := 3, metadata_hash := "h", is_verified := true, is_blacklisted := false }
    rfl rfl rfl rfl

/-! ## Claim C7 -/

/-- Run a list of `create_job` requests (finder, token, amount) in order,
collecting the returned ids; `none` if any call aborts. -/
def createMany (env : MEnv) : World → List (Address × Address × Int) →
    Option (World × List Nat)
  | w, [] => some (w, [])
  | w, (f, t, a) :: rest =>
    match create_job env w f t a with
    | .error _ => none
    | .ok (w1, id) =>
      match createMany env w1 rest with
      | none => none
      | some (w2, ids) => some (w2, id :: ids)

/-- Each successful `create_job` returns counter + 1 and stores it back. -/
theorem create_job_counter_step {env : MEnv} {w : World} {f t : Address}
    {amt : Int} {w' : World} {id : Nat}
    (h : create_job env w f t amt = Except.ok (w', id)) :
    id = w.market.jobCounter.getD 0 + 1 ∧ w'.market.jobCounter = some id := by
  simp [create_job] at h
  obtain ⟨-, hw', hid⟩ := h
  subst hid
  subst hw'
  exact ⟨rfl, rfl⟩

/-- Ids returned by consecutive creates continue the counter. -/
theorem createMany_ids (env : MEnv) :
    ∀ (reqs : List (Address × Address × Int)) (w w' : World) (ids : List Nat),
      createMany env w reqs = some (w', ids) →
      ids = List.range' (w.market.jobCounter.getD 0 + 1) reqs.length ∧
      w'.market.jobCounter.getD 0 = w.market.jobCounter.getD 0 + reqs.length := by
  intro reqs
  induction reqs with
  | nil =>
      intro w w' ids h
      simp [createMany] at h
      obtain ⟨hw, hids⟩ := h
      subst hw
      simp [hids]
  | cons hd tl ih =>
      obtain ⟨f, t, a⟩ := hd
      intro w w' ids h
      cases hc : create_job env w f t a with
      | error e => simp [createMany, hc] at h
      | ok p =>
          obtain ⟨w1, id⟩ := p
          cases hm : createMany env w1 tl with
          | none => simp [createMany, hc, hm] at h
          | some q =>
              obtain ⟨w2, ids'⟩ := q
              simp [createMany, hc, hm] at h
              obtain ⟨hw2, hids⟩ := h
              obtain ⟨hid, hcnt⟩ := create_job_counter_step hc
              obtain ⟨hids', hcnt'⟩ := ih w1 w' ids' (by rw [hm, hw2])
              subst hid
              constructor
              · rw [← hids, hids', hcnt]
                simp [List.range'_succ, Option.getD]
              · rw [hcnt', hcnt]
                simp [Option.getD]
                omega

/-- C7: over N consecutive successful `create_job` calls from the initial
world the returned ids are exactly `1, 2, …, N` (`List.range' 1 N`), with
no gap or reuse; and each successful `create_job` returns
`JobCounter + 1` and stores that id back as the new `JobCounter`, so the
singleton always equals the most recently created id. -/
theorem job_ids_strictly_increasing :
    (∀ (env : MEnv) (w : World) (f t : Address) (amt : Int) (w' : World) (id : Nat),
      create_job env w f t amt = Except.ok (w', id) →
      id = w.market.jobCounter.getD 0 + 1 ∧ w'.market.jobCounter = some id) ∧
    (∀ (env : MEnv) (reqs : List (Address × Address × Int)) (w' : World)
      (ids : List Nat),
      createMany env initialWorld reqs = some (w', ids) →
      ids = List.range' 1 reqs.length) := by
  constructor
  · intro env w f t amt w' id h
    exact create_job_counter_step h
  · intro env reqs w' ids h
    have := (createMany_ids env reqs initialWorld w' ids h).1
    simpa [initialWorld] using this

/-! ## Claim C8 -/

/-- Initial world where finder 1 holds 1000 units of token 9. -/
def wBal : World :=
  { initialWorld with balances := fun t a => if t = 9 ∧ a = 1 then 1000 else 0 }

/-- World after `create_job(finder 1, token 9, amount 300)` from `wBal`. -/
def exB1 : World :=
  (((create_job envA wBal 1 9 300).map Prod.fst).toOption).getD wBal

/-- World after additionally increasing job 1's budget by 100. -/
def exB2 : World :=
  ((increase_budget envA exB1 1 1 100).toOption).getD exB1

/-- World after additionally increasing job 1's budget by 200. -/
def exB3 : World :=
  ((increase_budget envA exB2 1 1 200).toOption).getD exB2

/-- C8: `increase_budget` is additive — every successful call transfers
`added_amount` from the finder into the contract and stores
`amount + added_amount` — and in the concrete scenario (create with 300,
then +100, then +200) the stored amount and custody reach 600 while the
finder's token balance drops by the total 600 locked (1000 → 400) and the
contract holds 600. -/
theorem increase_budget_additive :
    (∀ (env : MEnv) (w : World) (f : Address) (id : Nat) (d : Int) (job : Job)
      (w' : World),
      w.market.jobs id = some job →
      increase_budget env w f id d = Except.ok w' →
      w'.market.jobs id = some { job with amount := job.amount + d } ∧
      w'.balances = moveTok w.balances job.token f env.contractAddr d) ∧
    (create_job envA wBal 1 9 300 = Except.ok (exB1, 1) ∧
     increase_budget envA exB1 1 1 100 = Except.ok exB2 ∧
     increase_budget envA exB2 1 1 200 = Except.ok exB3 ∧
     (exB3.market.jobs 1).map Job.amount = some 600 ∧
     exB3.custody 1 = 600 ∧
     exB3.balances 9 1 = 400 ∧
     exB3.balances 9 0 = 600) := by
  constructor
  · intro env w f id d job w' hjob hok
    simp [increase_budget] at hok
    obtain ⟨-, job2, hjob2, -, -, hw'⟩ := hok
    rw [hjob] at hjob2
    injection hjob2 with h2
    subst h2
    subst hw'
    exact ⟨by simp, rfl⟩
  · exact ⟨rfl, rfl, rfl, by decide, by decide, by decide, by decide⟩

/-! ## Claim C9 -/

/-- C9: for an `Open` job and a candidate whose profile has role 3 and is
not blacklisted, a successful `apply_for_job` returns the world unchanged
except for the one appended `JobApplication` event: the stored job record
(and every other record, balance and custody entry) is untouched. -/
theorem apply_for_job_frame (env : MEnv) (w : World) (artisan : Address)
    (job_id : Nat) (job : Job) (p : Market.Profile)
    (hauth : env.auths artisan = true)
    (hreg : w.market.registryContract ≠ none)
    (hjob : w.market.jobs job_id = some job)
    (hopen : job.status = .Open)
    (hp : env.registry artisan = some p)
    (hrole : p.role = 3)
    (hbl : p.is_blacklisted = false) :
    apply_for_job env w artisan job_id =
      Except.ok (emit w (Event.JobApplication job_id artisan)) := by
  simp [apply_for_job, withJob, withOpt, require, hauth, hreg, hjob, hopen, hp,
    hrole, hbl]

/-- Witness for C9: artisan 2 applies to the open job 1; the world is
unchanged but for the event. -/
theorem apply_for_job_frame_witness :
    apply_for_job envReg wOpen 2 1 =
      Except.ok (emit wOpen (Event.JobApplication 1 2)) :=
  apply_for_job_frame envReg wOpen 2 1 jobOpen
    { role := 3, metadata_hash := "h", is_verified := true, is_blacklisted := false }
    rfl (by decide) rfl rfl rfl rfl rfl

/-! ## Claim C10 -/

/-- C10: `increase_budget` puts no sign or lower bound on `added_amount`:
for a non-finalized job owned by the authenticated caller, every i128
value — zero and negative included — passes all contract-side guards, and
(with the token transfer abstracted as succeeding, per the design
document) the stored amount becomes `amount + added_amount`, which a
negative `added_amount` decreases. -/
theorem increase_budget_any_i128 (env : MEnv) (w : World) (f : Address)
    (id : Nat) (d : Int) (job : Job)
    (hauth : env.auths f = true)
    (hjob : w.market.jobs id = some job)
    (hown : job.finder = f)
    (hnc : job.status ≠ .Completed)
    (hncc : job.status ≠ .Cancelled)
    (hlo : -(2 ^ 127) ≤ d) (hhi : d < 2 ^ 127) :
    increase_budget env w f id d =
      Except.ok (emit (setJob
        (adjCustody
          { w with balances := moveTok w.balances job.token f env.contractAddr d }
          id d)
        id { job with amount := job.amount + d })
        (Event.BudgetIncreased id d (job.amount + d))) := by
  simp [increase_budget, withJob, withOpt, require, hauth, hjob, hown, hnc, hncc]

/-- Witness for C10: a negative top-up of −100 on the open 500-escrow job
passes the guards and records amount 400. -/
theorem increase_budget_any_i128_witness :
    increase_budget envA wOpen 1 1 (-100) =
      Except.ok (emit (setJob
        (adjCustody
          { wOpen with balances := moveTok wOpen.balances 9 1 0 (-100) }
          1 (-100))
        1 { jobOpen with amount := 500 + (-100) })
        (Event.BudgetIncreased 1 (-100) (500 + (-100)))) :=
  increase_budget_any_i128 envA wOpen 1 1 (-100) jobOpen rfl rfl rfl
    (by decide) (by decide) (by norm_num) (by norm_num)

/-! ## Claim C4 -/

/-- C4: the registry's `Profile` struct declares only `role`,
`metadata_hash` and `is_verified` — there is no `is_blacklisted` field —
while the market contract's guard decodes the call result into its
four-field mirror `Market.Profile` and reads `is_blacklisted`.  Hence no
value the registry's `get_profile` can return decodes to the profile the
market expects: the encoded three-field struct always fails the market's
four-field decoding. -/
theorem registry_profile_lacks_blacklist_field (p : Registry.Profile) :
    Market.decodeProfile (Registry.Profile.encode p) = none := by
  rfl

/-- Evaluation of `Registry.get_profile` at a concrete registered and a
concrete unknown identity: the stored three-field profile is returned
as-is, and an unknown identity aborts `NotFound`. -/
theorem registry_get_profile_eval :
    Registry.get_profile
        (fun a => if a = 2 then
          some { role := 3, metadata_hash := "h", is_verified := true }
        else none) 2 =
      Except.ok { role := 3, metadata_hash := "h", is_verified := true } ∧
    Registry.get_profile (fun _ => none) 5 = Except.error Err.NotFound := by
  exact ⟨rfl, rfl⟩
